import Mathlib

/-!
Verification of the Ralph Optimizer log-analysis engine
(`ralph_optimizer.py`): a shallow embedding of its data model, the
three-tier log parser, the cost analyzer and the pattern detector,
together with proofs of the specified properties.

Modelling conventions:
* JSON lines are modelled by inductive types whose constructors mirror the
  exact dispatch the Python code performs on each line (iteration header,
  recognised record kinds, any other valid record, malformed line).
* Python dictionaries that are built by insertion and then iterated are
  modelled as insertion-ordered association lists.
* `sorted(xs, key=k, reverse=True)` (a stable descending sort) is modelled
  by a stable descending insertion sort, which produces the same list.
* Floating-point dollar amounts are modelled as exact rationals.
* The filesystem is modelled as a structure mapping resolved path strings
  to optional file contents.
-/

/-- `pat in s` for Python strings: `pat` occurs as a contiguous substring. -/
def strContains (s pat : String) : Bool :=
  s.toList.tails.any (fun t => pat.toList.isPrefixOf t)

-- --- Data Models (mirroring the `@dataclass` definitions) ---

/-- The `input` dict of a tool call, restricted to the keys the analyzer
reads (`file_path`, `command`, presence of `offset` / `limit`); a missing
key is modelled by the `.get(key, "")` default the code uses. -/
structure ToolInput where
  file_path : String := ""
  command : String := ""
  has_offset : Bool := false
  has_limit : Bool := false
deriving DecidableEq, Repr

structure ToolCall where
  name : String
  input : ToolInput := {}
  output_tokens : Nat := 0
  index : Nat := 0
deriving DecidableEq, Repr

structure Iteration where
  number : Nat
  total : Nat
  session_id : String
  timestamp : String
  is_error : Bool := false
  result : String := ""
deriving DecidableEq, Repr

structure AgentSession where
  agent_id : String
  agent_type : String
  tool_calls : List ToolCall := []
  total_input_tokens : Nat := 0
  total_output_tokens : Nat := 0
deriving DecidableEq, Repr

structure Session where
  session_id : String
  tool_calls : List ToolCall := []
  total_input_tokens : Nat := 0
  total_output_tokens : Nat := 0
  agents : List AgentSession := []
deriving DecidableEq, Repr

structure CostBreakdown where
  input_tokens : Nat := 0
  output_tokens : Nat := 0
  estimated_cost_usd : ℚ := 0
  by_tool : List (String × Nat) := []
deriving DecidableEq, Repr

structure RedundantRead where
  file_path : String
  read_count : Nat
  first_read_index : Nat
  total_wasted_tokens : Nat
deriving DecidableEq, Repr

structure LargeFileRead where
  file_path : String
  lines_read : Nat
  read_count : Nat
deriving DecidableEq, Repr

structure LateTestRun where
  edits_before_test : Nat
  first_test_index : Int
  total_tool_calls : Nat
deriving DecidableEq, Repr

structure AgentOverhead where
  agent_id : String
  agent_type : String
  tool_call_count : Nat
deriving DecidableEq, Repr

structure Pattern where
  name : String
  description : String
  occurrences : Nat
  estimated_waste_tokens : Nat
  suggestion : String
deriving DecidableEq, Repr

-- --- Pricing (Claude Opus 4.5 pricing, per token, as exact rationals) ---

def OPUS_INPUT_PRICE : ℚ := 15 / 1000000
def OPUS_OUTPUT_PRICE : ℚ := 75 / 1000000
def HAIKU_INPUT_PRICE : ℚ := (8 / 10) / 1000000
def HAIKU_OUTPUT_PRICE : ℚ := 4 / 1000000

-- --- LogParser ---

/-- `LogParser._cwd_to_runtime_dir`: rewrite `/` and `_` to `-`. -/
def cwd_to_runtime_dir (cwd : String) : String :=
  (cwd.replace "/" "-").replace "_" "-"

/-- One line of the Tier-1 orchestrator (ralph) log, classified exactly as
`parse_ralph_log` classifies it: an iteration-header line matching the
`=== Iteration <n>/<total> === <timestamp>` template; a non-JSON line
starting with `Result:` (carrying the text after the 7-character marker);
a JSON record of kind system/init (with its `session_id` and `cwd`
fields, defaulting to `""`); a JSON record of kind result (with its
`is_error` and `result` fields); any other valid JSON record; or a
malformed line (not a header, not a `Result:` line, and either not
starting with `{` or failing JSON decoding). -/
inductive RLine where
  | iterHeader (number total : Nat) (timestamp : String)
  | resultText (rest : String)
  | initRec (session_id : String) (cwd : String)
  | resultRec (is_error : Bool) (result : String)
  | otherJson
  | malformed
deriving DecidableEq, Repr

def RLine.isMalformed : RLine → Bool
  | .malformed => true
  | _ => false

/-- Replace the last element of a list (Python `xs[-1] = f(xs[-1])`);
identity on the empty list, matching the `if iterations:` guards. -/
def modifyLast {α : Type} (f : α → α) : List α → List α
  | [] => []
  | [a] => [f a]
  | a :: b :: rest => a :: modifyLast f (b :: rest)

/-- The local state of the `parse_ralph_log` loop, together with the
parser's `runtime_dir` attribute which that loop may set. -/
structure RState where
  current_number : Nat := 0
  current_total : Nat := 0
  current_timestamp : String := ""
  current_session_id : String := ""
  iterations : List Iteration := []
  runtime_dir : Option String := none
deriving DecidableEq, Repr

/-- One step of the `parse_ralph_log` per-line loop. -/
def step_ralph_line (st : RState) : RLine → RState
  | .iterHeader n t ts =>
      { st with current_number := n, current_total := t,
                current_timestamp := ts, current_session_id := "" }
  | .resultText rest =>
      { st with iterations :=
          (modifyLast (fun it => { it with result := rest.trim })
            st.iterations) }
  | .initRec sid cwd =>
      let rd := match st.runtime_dir with
        | some r => some r
        | none => if cwd ≠ "" then some (cwd_to_runtime_dir cwd) else none
      { st with current_session_id := sid, runtime_dir := rd,
                iterations := st.iterations ++
                  [{ number := st.current_number, total := st.current_total,
                     session_id := sid, timestamp := st.current_timestamp }] }
  | .resultRec is_err res =>
      if is_err then
        { st with iterations :=
            (modifyLast (fun it => { it with is_error := true, result := res })
              st.iterations) }
      else st
  | .otherJson => st
  | .malformed => st

/-- `LogParser.parse_ralph_log`, over the classified lines of the file,
starting from the parser's current `runtime_dir` (initially `none`).
Returns the extracted iterations and the possibly-updated `runtime_dir`. -/
def parse_ralph_log (runtime_dir : Option String) (lines : List RLine) :
    List Iteration × Option String :=
  let st := lines.foldl step_ralph_line ({ runtime_dir := runtime_dir } : RState)
  (st.iterations, st.runtime_dir)

/-- Token usage of an assistant record (`message.usage`, each field
defaulting to 0). -/
structure Usage where
  input_tokens : Nat := 0
  cache_creation_input_tokens : Nat := 0
  cache_read_input_tokens : Nat := 0
  output_tokens : Nat := 0
deriving DecidableEq, Repr

/-- One item of an assistant record's `message.content` list: either a
`tool_use` block (with its `name` and `input`) or anything else. -/
inductive ContentItem where
  | toolUse (name : String) (input : ToolInput)
  | other
deriving DecidableEq, Repr

/-- One line of a Tier-2 session transcript, classified as
`parse_session` classifies it: an assistant record (carrying the
record-level `parent_tool_use_id`, its usage, and its content list), any
other valid JSON record, or a malformed line. -/
inductive SLine where
  | assistantRec (parent_tool_use_id : Option String) (usage : Usage)
      (content : List ContentItem)
  | otherJson
  | malformed
deriving DecidableEq, Repr

def SLine.isMalformed : SLine → Bool
  | .malformed => true
  | _ => false

/-- The inner `for item in content` loop of `parse_session`: build a
`ToolCall` for every `tool_use` item, append it to the session's
`tool_calls` only when the record has no `parent_tool_use_id`, and advance
the per-session `tool_index` for every item regardless. State is
`(tool_index, session)`. -/
def step_session_content (parent : Option String) (output_tokens : Nat)
    (st : Nat × Session) : ContentItem → Nat × Session
  | .toolUse name input =>
      let tc : ToolCall :=
        { name := name, input := input, output_tokens := output_tokens,
          index := st.1 }
      let s := if parent = none then
          { st.2 with tool_calls := st.2.tool_calls ++ [tc] }
        else st.2
      (st.1 + 1, s)
  | .other => st

/-- One step of the `parse_session` per-line loop over `(tool_index,
session)`. -/
def step_session_line (st : Nat × Session) : SLine → Nat × Session
  | .assistantRec parent usage content =>
      let s := { st.2 with
        total_input_tokens := st.2.total_input_tokens + usage.input_tokens
          + usage.cache_creation_input_tokens + usage.cache_read_input_tokens,
        total_output_tokens := st.2.total_output_tokens + usage.output_tokens }
      content.foldl (step_session_content parent usage.output_tokens) (st.1, s)
  | .otherJson => st
  | .malformed => st

/-- The per-line loop of `parse_session` over the classified lines of a
session transcript file, starting from the empty session for `sid`. -/
def process_session_lines (sid : String) (lines : List SLine) : Session :=
  (lines.foldl step_session_line (0, { session_id := sid })).2

/-- One line of a Tier-3 agent sub-transcript, classified as
`_parse_agent_file` classifies it: a system/init record (with its `model`
string, defaulting to `""`), an assistant record, any other valid JSON
record, or a malformed line. -/
inductive ALine where
  | initRec (model : String)
  | assistantRec (usage : Usage) (content : List ContentItem)
  | otherJson
  | malformed
deriving DecidableEq, Repr

def ALine.isMalformed : ALine → Bool
  | .malformed => true
  | _ => false

/-- The inner content loop of `_parse_agent_file`: every `tool_use` item
becomes a tool call of the agent (no parent filtering). State is
`(tool_index, agent)`. -/
def step_agent_content (output_tokens : Nat)
    (st : Nat × AgentSession) : ContentItem → Nat × AgentSession
  | .toolUse name input =>
      let tc : ToolCall :=
        { name := name, input := input, output_tokens := output_tokens,
          index := st.1 }
      (st.1 + 1, { st.2 with tool_calls := st.2.tool_calls ++ [tc] })
  | .other => st

/-- One step of the `_parse_agent_file` per-line loop. -/
def step_agent_line (st : Nat × AgentSession) : ALine → Nat × AgentSession
  | .initRec model =>
      let ty :=
        if strContains model "haiku" then "Explore/Haiku"
        else if strContains model "sonnet" then "Sonnet"
        else if strContains model "opus" then "Opus"
        else st.2.agent_type
      (st.1, { st.2 with agent_type := ty })
  | .assistantRec usage content =>
      let a := { st.2 with
        total_input_tokens := st.2.total_input_tokens + usage.input_tokens
          + usage.cache_creation_input_tokens + usage.cache_read_input_tokens,
        total_output_tokens := st.2.total_output_tokens + usage.output_tokens }
      content.foldl (step_agent_content usage.output_tokens) (st.1, a)
  | .otherJson => st
  | .malformed => st

/-- `LogParser._parse_agent_file` over the classified lines of one agent
file; the agent starts with `agent_type = "unknown"`. -/
def parse_agent_file (agent_id : String) (lines : List ALine) : AgentSession :=
  (lines.foldl step_agent_line
    (0, { agent_id := agent_id, agent_type := "unknown" })).2

/-- `LogParser.CLAUDE_PROJECTS_DIR` (`~/.claude/projects`), as the string
prefix of resolved session-file paths. -/
def CLAUDE_PROJECTS_DIR : String := "~/.claude/projects"

/-- The filesystem visible to `parse_session`: the classified lines of
the session transcript at each resolved path (`none` when the file does
not exist), and for each agent directory path the `(agent id, lines)`
pairs of its `*.jsonl` files in sorted filename order (the empty list
when the directory does not exist or holds no such files). -/
structure FileSystem where
  session_file : String → Option (List SLine)
  agent_files : String → List (String × List ALine)

/-- The resolved Tier-2 transcript path
`CLAUDE_PROJECTS_DIR / runtime_dir / f"{session_id}.jsonl"`. -/
def session_path (runtime_dir session_id : String) : String :=
  CLAUDE_PROJECTS_DIR ++ "/" ++ runtime_dir ++ "/" ++ session_id ++ ".jsonl"

/-- The agent sub-session directory `session_dir / session_id`. -/
def agent_dir_path (runtime_dir session_id : String) : String :=
  CLAUDE_PROJECTS_DIR ++ "/" ++ runtime_dir ++ "/" ++ session_id

/-- `LogParser.parse_session`: resolve the transcript via the cached
`runtime_dir` (`if not self.runtime_dir: return session` — an unset or
empty key yields the empty session, as does a missing file), process its
lines, then parse the agent sub-sessions. -/
def parse_session (fs : FileSystem) (runtime_dir : Option String)
    (session_id : String) : Session :=
  match runtime_dir with
  | none => { session_id := session_id }
  | some rd =>
    if rd = "" then { session_id := session_id }
    else
      match fs.session_file (session_path rd session_id) with
      | none => { session_id := session_id }
      | some lines =>
        let session := process_session_lines session_id lines
        let agents := (fs.agent_files (agent_dir_path rd session_id)).map
          (fun p => parse_agent_file p.1 p.2)
        { session with agents := session.agents ++ agents }

-- --- CostAnalyzer ---

/-- `dict.get(k, 0) + n` followed by assignment on a Python dict modelled
as an insertion-ordered association list: bump the first entry for `k`,
or append a fresh entry at the end. -/
def bumpCount (m : List (String × Nat)) (k : String) (n : Nat) :
    List (String × Nat) :=
  match m with
  | [] => [(k, n)]
  | (k', v) :: rest =>
      if k' = k then (k', v + n) :: rest else (k', v) :: bumpCount rest k n

/-- The per-agent cost accumulation step of `estimate_cost` over
`(cost, breakdown)`. -/
def step_agent_cost (acc : ℚ × CostBreakdown) (agent : AgentSession) :
    ℚ × CostBreakdown :=
  let cost :=
    if strContains agent.agent_type "Haiku" || strContains agent.agent_type "Explore"
    then acc.1 + ((agent.total_input_tokens : ℚ) * HAIKU_INPUT_PRICE
        + (agent.total_output_tokens : ℚ) * HAIKU_OUTPUT_PRICE)
    else acc.1 + ((agent.total_input_tokens : ℚ) * OPUS_INPUT_PRICE
        + (agent.total_output_tokens : ℚ) * OPUS_OUTPUT_PRICE)
  (cost,
   { acc.2 with
     input_tokens := acc.2.input_tokens + agent.total_input_tokens,
     output_tokens := acc.2.output_tokens + agent.total_output_tokens })

/-- `CostAnalyzer.estimate_cost`. -/
def estimate_cost (session : Session) : CostBreakdown :=
  let breakdown : CostBreakdown :=
    { input_tokens := session.total_input_tokens,
      output_tokens := session.total_output_tokens }
  let cost := (session.total_input_tokens : ℚ) * OPUS_INPUT_PRICE
    + (session.total_output_tokens : ℚ) * OPUS_OUTPUT_PRICE
  let acc := session.agents.foldl step_agent_cost (cost, breakdown)
  let breakdown := { acc.2 with estimated_cost_usd := acc.1 }
  let breakdown := session.tool_calls.foldl
    (fun b tc => { b with by_tool := bumpCount b.by_tool tc.name 1 }) breakdown
  session.agents.foldl
    (fun b agent => agent.tool_calls.foldl
      (fun b tc => { b with by_tool := bumpCount b.by_tool ("Agent:" ++ tc.name) 1 })
      b)
    breakdown

-- --- PatternDetector ---

/-- Insert into a descending run, after every element whose key is
strictly greater (stability: an earlier element precedes later ones with
an equal key). -/
def insertDescBy {α : Type} (key : α → Nat) (a : α) : List α → List α
  | [] => [a]
  | b :: bs => if key b ≤ key a then a :: b :: bs else b :: insertDescBy key a bs

/-- Python `sorted(xs, key=key, reverse=True)`: the stable descending
sort of `xs`. -/
def sortDescBy {α : Type} (key : α → Nat) : List α → List α
  | [] => []
  | x :: xs => insertDescBy key x (sortDescBy key xs)

/-- `dict.setdefault(k, []).append(v)` on an insertion-ordered
association list. -/
def appendIdx (m : List (String × List Nat)) (k : String) (v : Nat) :
    List (String × List Nat) :=
  match m with
  | [] => [(k, [v])]
  | (k', vs) :: rest =>
      if k' = k then (k', vs ++ [v]) :: rest else (k', vs) :: appendIdx rest k v

/-- `dict.get(k, [])` on an insertion-ordered association list. -/
def lookupIdx (m : List (String × List Nat)) (k : String) : List Nat :=
  match m with
  | [] => []
  | (k', vs) :: rest => if k' = k then vs else lookupIdx rest k

/-- The grouping loop of `find_redundant_reads`: build the `reads` and
`edit_indices` maps (`file_path → [tool-call indices]`) over the
session's top-level tool calls, skipping calls with an empty
`file_path`. (The `edits` set built alongside in the source is never
read, so it is not modelled.) -/
def step_read_edit (acc : List (String × List Nat) × List (String × List Nat))
    (tc : ToolCall) : List (String × List Nat) × List (String × List Nat) :=
  if tc.name = "Read" then
    if tc.input.file_path ≠ "" then
      (appendIdx acc.1 tc.input.file_path tc.index, acc.2)
    else acc
  else if tc.name = "Edit" ∨ tc.name = "Write" then
    if tc.input.file_path ≠ "" then
      (acc.1, appendIdx acc.2 tc.input.file_path tc.index)
    else acc
  else acc

/-- The `reads` and `edit_indices` maps of `find_redundant_reads` built
over the session's top-level tool calls. -/
def build_read_edit_maps (calls : List ToolCall) :
    List (String × List Nat) × List (String × List Nat) :=
  calls.foldl step_read_edit ([], [])

/-- The `wasted_reads` count: consecutive read-index pairs with no edit
index strictly between them. -/
def countWasted (indices edit_idxs : List Nat) : Nat :=
  (indices.zip indices.tail).countP
    (fun p => !edit_idxs.any (fun e => p.1 < e && e < p.2))

/-- `PatternDetector.find_redundant_reads`. -/
def find_redundant_reads (session : Session) : List RedundantRead :=
  let maps := build_read_edit_maps session.tool_calls
  let redundant := maps.1.filterMap (fun entry =>
    if entry.2.length ≤ 1 then none
    else
      let wasted_reads := countWasted entry.2 (lookupIdx maps.2 entry.1)
      if wasted_reads > 0 then
        some { file_path := entry.1, read_count := entry.2.length,
               first_read_index := entry.2.headD 0,
               total_wasted_tokens := wasted_reads * 500 }
      else none)
  sortDescBy (fun r => r.total_wasted_tokens) redundant

/-- `PatternDetector.find_large_file_reads`: count `Read` calls lacking
both `offset` and `limit`, per file, and report files with more than one
such read. -/
def find_large_file_reads (session : Session) : List LargeFileRead :=
  let large_reads := session.tool_calls.foldl
    (fun (m : List (String × Nat)) tc =>
      if tc.name = "Read" ∧ tc.input.file_path ≠ ""
          ∧ tc.input.has_offset = false ∧ tc.input.has_limit = false then
        bumpCount m tc.input.file_path 1
      else m)
    []
  let results := large_reads.filterMap (fun entry =>
    if entry.2 > 1 then
      some { file_path := entry.1, lines_read := 0, read_count := entry.2 }
    else none)
  sortDescBy (fun r => r.read_count) results

/-- The fixed test-runner substrings of `find_late_test_runs`. -/
def testSubstrings : List String :=
  ["go test", "npm test", "vitest", "verify-all",
   "test-backend", "test-frontend", "test-e2e"]

/-- `any(p in cmd for p in test_patterns)`. -/
def is_test_cmd (cmd : String) : Bool :=
  testSubstrings.any (fun p => strContains cmd p)

/-- The scan loop of `find_late_test_runs` over the enumerated tool
calls: count `Edit`/`Write` calls, and stop at the first `Bash` call
whose command contains a test-runner substring, returning the edit count
so far and the position (`none` when no such call exists). -/
def scan_late_tests : List ToolCall → Nat → Nat → Nat × Option Nat
  | [], _, edit_count => (edit_count, none)
  | tc :: rest, i, edit_count =>
      if tc.name = "Edit" ∨ tc.name = "Write" then
        scan_late_tests rest (i + 1) (edit_count + 1)
      else if tc.name = "Bash" ∧ is_test_cmd tc.input.command then
        (edit_count, some i)
      else scan_late_tests rest (i + 1) edit_count

/-- `PatternDetector.find_late_test_runs`. -/
def find_late_test_runs (session : Session) : List LateTestRun :=
  let scanned := scan_late_tests session.tool_calls 0 0
  match scanned.2 with
  | none =>
      if scanned.1 > 0 then
        [{ edits_before_test := scanned.1, first_test_index := -1,
           total_tool_calls := session.tool_calls.length }]
      else []
  | some i =>
      if 5 ≤ scanned.1 then
        [{ edits_before_test := scanned.1, first_test_index := (i : Int),
           total_tool_calls := session.tool_calls.length }]
      else []

/-- `PatternDetector.find_agent_overhead`. -/
def find_agent_overhead (session : Session) : List AgentOverhead :=
  session.agents.filterMap (fun agent =>
    if agent.tool_calls.length < 3 then
      some { agent_id := agent.agent_id, agent_type := agent.agent_type,
             tool_call_count := agent.tool_calls.length }
    else none)

/-- The accumulator of the cross-session loop of `detect_all_patterns`. -/
structure DetectTotals where
  total_redundant_reads : Nat := 0
  total_redundant_tokens : Nat := 0
  total_late_tests : Nat := 0
  total_overhead_agents : Nat := 0
  top_redundant_files : List (String × Nat) := []
deriving DecidableEq, Repr

/-- One session's contribution to the cross-session totals. -/
def step_detect (acc : DetectTotals) (session : Session) : DetectTotals :=
  let acc := (find_redundant_reads session).foldl
    (fun (a : DetectTotals) r =>
      { a with
        total_redundant_reads := a.total_redundant_reads + (r.read_count - 1),
        total_redundant_tokens := a.total_redundant_tokens + r.total_wasted_tokens,
        top_redundant_files :=
          bumpCount a.top_redundant_files r.file_path r.read_count })
    acc
  let acc := { acc with total_late_tests :=
      acc.total_late_tests + (find_late_test_runs session).length }
  { acc with total_overhead_agents :=
      acc.total_overhead_agents + (find_agent_overhead session).length }

/-- `Path(fp).name`, the final path component (only used inside
human-readable descriptions). -/
def pathName (fp : String) : String :=
  ((fp.splitOn "/").filter (fun s => s ≠ "")).getLastD ""

/-- `PatternDetector.detect_all_patterns`. -/
def detect_all_patterns (sessions : List Session) : List Pattern :=
  let t := sessions.foldl step_detect {}
  let patterns :=
    (if t.total_redundant_reads > 0 then
      let top_files := (sortDescBy (fun e => e.2) t.top_redundant_files).take 3
      let file_list := String.intercalate ", "
        (top_files.map (fun e => pathName e.1 ++ " (" ++ toString e.2 ++ "x)"))
      ([{ name := "Redundant File Reads",
          description := (toString t.total_redundant_reads
            ++ " redundant reads across " ++ toString sessions.length
            ++ " sessions. Top: " ++ file_list),
          occurrences := t.total_redundant_reads,
          estimated_waste_tokens := t.total_redundant_tokens,
          suggestion := "Pre-load frequently read files into prompt or use subagent summaries" }] : List Pattern)
    else []) ++
    (if t.total_late_tests > 0 then
      ([{ name := "Late Test Execution",
          description := (toString t.total_late_tests
            ++ " sessions ran tests only after 5+ edits"),
          occurrences := t.total_late_tests,
          estimated_waste_tokens := t.total_late_tests * 5000,
          suggestion := "Run tests after every 2-3 edits to catch issues sooner" }] : List Pattern)
    else []) ++
    (if t.total_overhead_agents > 0 then
      ([{ name := "Low-Value Agent Launches",
          description := (toString t.total_overhead_agents
            ++ " agents with <3 tool calls (could use direct tools)"),
          occurrences := t.total_overhead_agents,
          estimated_waste_tokens := t.total_overhead_agents * 2000,
          suggestion := "Use direct Grep/Read instead of launching agents for simple lookups" }] : List Pattern)
    else [])
  sortDescBy (fun p => p.estimated_waste_tokens) patterns

-- --- Specification-side definitions used to state the properties ---

/-- The sum, over every assistant record of a Tier-2 transcript, of
`input_tokens + cache_creation_input_tokens + cache_read_input_tokens`. -/
def tier2_input_sum (lines : List SLine) : Nat :=
  (lines.map (fun l => match l with
    | .assistantRec _ u _ =>
        u.input_tokens + u.cache_creation_input_tokens + u.cache_read_input_tokens
    | _ => 0)).sum

/-- The sum of `output_tokens` over every assistant record. -/
def tier2_output_sum (lines : List SLine) : Nat :=
  (lines.map (fun l => match l with
    | .assistantRec _ u _ => u.output_tokens
    | _ => 0)).sum

/-- The number of `tool_use` items in a content list. -/
def count_uses (content : List ContentItem) : Nat :=
  content.countP (fun item => match item with
    | .toolUse _ _ => true
    | .other => false)

/-- The tool invocations of one assistant record's content list, in
order, carrying the turn's output tokens and consecutive index values
starting at `i`. -/
def content_invocations (output_tokens i : Nat) :
    List ContentItem → List ToolCall
  | [] => []
  | .toolUse name input :: rest =>
      { name := name, input := input, output_tokens := output_tokens,
        index := i } :: content_invocations output_tokens (i + 1) rest
  | .other :: rest => content_invocations output_tokens i rest

/-- Every tool invocation of a Tier-2 transcript in file order — nested
ones included — paired with the enclosing record's
`parent_tool_use_id`, with the per-session invocation counter starting
at `i`. -/
def session_invocations (lines : List SLine) (i : Nat) :
    List (Option String × ToolCall) :=
  match lines with
  | [] => []
  | .assistantRec parent usage content :: rest =>
      (content_invocations usage.output_tokens i content).map
        (fun tc => (parent, tc))
        ++ session_invocations rest (i + count_uses content)
  | _ :: rest => session_invocations rest i

/-- The indices of the `Read` calls of resource `fp` among a session's
top-level tool calls, in order. -/
def read_indices (calls : List ToolCall) (fp : String) : List Nat :=
  calls.filterMap (fun tc =>
    if tc.name = "Read" ∧ tc.input.file_path = fp then some tc.index else none)

/-- The indices of the `Edit`/`Write` calls of resource `fp` among a
session's top-level tool calls, in order. -/
def edit_indices (calls : List ToolCall) (fp : String) : List Nat :=
  calls.filterMap (fun tc =>
    if (tc.name = "Edit" ∨ tc.name = "Write") ∧ tc.input.file_path = fp
    then some tc.index else none)

/-- Sum over sessions and their redundant-read findings of
`read_count - 1` — the value `detect_all_patterns` accumulates into
`total_redundant_reads`. -/
def total_redundant_reads_spec (sessions : List Session) : Nat :=
  (sessions.map (fun s =>
    ((find_redundant_reads s).map (fun r => r.read_count - 1)).sum)).sum

/-- Sum over sessions and their redundant-read findings of
`total_wasted_tokens`. -/
def total_redundant_tokens_spec (sessions : List Session) : Nat :=
  (sessions.map (fun s =>
    ((find_redundant_reads s).map (fun r => r.total_wasted_tokens)).sum)).sum

/-- The number of `Edit`/`Write` calls in a list of tool calls. -/
def count_edit_calls (calls : List ToolCall) : Nat :=
  calls.countP (fun tc => tc.name == "Edit" || tc.name == "Write")

/-- A shell-execution call whose command contains a test-runner
substring. -/
def is_test_call (tc : ToolCall) : Bool :=
  tc.name == "Bash" && is_test_cmd tc.input.command

/-- The position of the first shell-execution call whose command contains
a test-runner substring (`none` when no such call exists). -/
def first_test_idx : List ToolCall → Option Nat
  | [] => none
  | tc :: rest =>
      if is_test_call tc then some 0 else (first_test_idx rest).map (· + 1)

/-- Late-test detection as the specification words it: find the first
shell-execution call containing a test-runner substring; if it exists at
position `i`, produce one finding exactly when at least 5 edit/write
calls precede it; if none exists, produce one finding with sentinel
index −1 exactly when at least one edit/write call occurred. -/
def late_test_spec (session : Session) : List LateTestRun :=
  match first_test_idx session.tool_calls with
  | some i =>
      if 5 ≤ count_edit_calls (session.tool_calls.take i) then
        [{ edits_before_test := count_edit_calls (session.tool_calls.take i),
           first_test_index := (i : Int),
           total_tool_calls := session.tool_calls.length }]
      else []
  | none =>
      if 0 < count_edit_calls session.tool_calls then
        [{ edits_before_test := count_edit_calls session.tool_calls,
           first_test_index := -1,
           total_tool_calls := session.tool_calls.length }]
      else []

/-- The cost `estimate_cost` adds for one agent sub-session. -/
def agent_cost (agent : AgentSession) : ℚ :=
  if strContains agent.agent_type "Haiku" || strContains agent.agent_type "Explore"
  then (agent.total_input_tokens : ℚ) * HAIKU_INPUT_PRICE
      + (agent.total_output_tokens : ℚ) * HAIKU_OUTPUT_PRICE
  else (agent.total_input_tokens : ℚ) * OPUS_INPUT_PRICE
      + (agent.total_output_tokens : ℚ) * OPUS_OUTPUT_PRICE

/-- Double every token count of an agent sub-session. -/
def double_agent (a : AgentSession) : AgentSession :=
  { a with total_input_tokens := 2 * a.total_input_tokens,
           total_output_tokens := 2 * a.total_output_tokens }

/-- Double every token count of a session, top-level and in every agent
sub-session. -/
def double_session (s : Session) : Session :=
  { s with total_input_tokens := 2 * s.total_input_tokens,
           total_output_tokens := 2 * s.total_output_tokens,
           agents := s.agents.map double_agent }

/-- A Tier-1 line that would cache an execution-directory key: a
system-initialization record with a non-empty working-directory field. -/
def has_nonempty_cwd_init (l : RLine) : Bool :=
  match l with
  | .initRec _ cwd => cwd ≠ ""
  | _ => false

-- --- Concrete example values used by the stated test cases ---

def read_call (fp : String) (i : Nat) : ToolCall :=
  { name := "Read", input := { file_path := fp }, index := i }

def edit_call (fp : String) (i : Nat) : ToolCall :=
  { name := "Edit", input := { file_path := fp }, index := i }

def bash_call (cmd : String) (i : Nat) : ToolCall :=
  { name := "Bash", input := { command := cmd }, index := i }

/-- A session reading resource `R` at indices 2, 5, 9 with no edits. -/
def sess_reads : Session :=
  { session_id := "reads",
    tool_calls := [read_call "R" 2, read_call "R" 5, read_call "R" 9] }

/-- The same reads with an `Edit` of `R` at index 7, between 5 and 9. -/
def sess_reads_edit : Session :=
  { session_id := "reads-edit",
    tool_calls := [read_call "R" 2, read_call "R" 5, edit_call "R" 7,
                   read_call "R" 9] }

/-- Six edits followed by a shell call containing `go test`. -/
def sess_six_edits_test : Session :=
  { session_id := "six-test",
    tool_calls := [edit_call "f" 0, edit_call "f" 1, edit_call "f" 2,
                   edit_call "f" 3, edit_call "f" 4, edit_call "f" 5,
                   bash_call "go test ./..." 6] }

/-- Six edits and no test call at all. -/
def sess_six_edits_no_test : Session :=
  { session_id := "six-none",
    tool_calls := [edit_call "f" 0, edit_call "f" 1, edit_call "f" 2,
                   edit_call "f" 3, edit_call "f" 4, edit_call "f" 5] }

/-- Two edits followed immediately by a test call. -/
def sess_two_edits_test : Session :=
  { session_id := "two-test",
    tool_calls := [edit_call "f" 0, edit_call "f" 1, bash_call "go test" 2] }

/-- An agent with exactly 2 tool calls. -/
def agent_two_calls : AgentSession :=
  { agent_id := "a2", agent_type := "Explore/Haiku",
    tool_calls := [read_call "x" 0, read_call "y" 1] }

/-- An agent with exactly 3 tool calls. -/
def agent_three_calls : AgentSession :=
  { agent_id := "a3", agent_type := "unknown",
    tool_calls := [read_call "x" 0, read_call "y" 1, read_call "z" 2] }

/-- A session delegating to both example agents. -/
def sess_agents : Session :=
  { session_id := "agents", agents := [agent_two_calls, agent_three_calls] }

/-- A filesystem with no session transcripts at all. -/
def fs_missing : FileSystem :=
  { session_file := fun _ => none, agent_files := fun _ => [] }

/-- A small Tier-2 transcript: two assistant records (the second one
nested under a delegating parent), one other record and one malformed
line. -/
def demo_lines : List SLine :=
  [.assistantRec none
     { input_tokens := 10, cache_creation_input_tokens := 20,
       cache_read_input_tokens := 30, output_tokens := 5 }
     [.toolUse "Read" { file_path := "R" }, .other,
      .toolUse "Bash" { command := "ls" }],
   .otherJson,
   .assistantRec (some "tu-1")
     { input_tokens := 1, cache_creation_input_tokens := 2,
       cache_read_input_tokens := 3, output_tokens := 4 }
     [.toolUse "Grep" {}],
   .malformed]

/-- A filesystem holding `demo_lines` for session `s` of runtime
directory `d`, and nothing else. -/
def fs_demo : FileSystem :=
  { session_file := fun p =>
      if p = session_path "d" "s" then some demo_lines else none,
    agent_files := fun _ => [] }

/-- A Tier-1 log whose only init record has an empty `cwd`. -/
def ralph_demo_lines : List RLine :=
  [.iterHeader 1 3 "2025-01-01", .initRec "abc" "", .malformed,
   .resultRec true "boom"]

/-- The total number of tool invocations (nested ones included) of a
Tier-2 transcript. -/
def total_uses (lines : List SLine) : Nat :=
  (lines.map (fun l => match l with
    | .assistantRec _ _ content => count_uses content
    | _ => 0)).sum

-- --- Theorems ---

/-- A fold ignores every element its step function fixes: dropping the
malformed lines does not change the fold's result. -/
theorem foldl_skips_fixed {α σ : Type} (step : σ → α → σ) (isM : α → Bool)
    (h : ∀ st a, isM a = true → step st a = st) :
    ∀ (ls : List α) (st : σ),
      ls.foldl step st = (ls.filter (fun a => !isM a)).foldl step st := by
  intro ls
  induction ls with
  | nil => intro st; rfl
  | cons a rest ih =>
    intro st
    by_cases hm : isM a = true
    · simpa [List.filter_cons, hm, h st a hm] using ih st
    · simp only [Bool.not_eq_true] at hm
      simp [List.filter_cons, hm, ih]

/-- C9. Skip-and-continue: in every tier, removing the malformed lines
from the input leaves the parse result unchanged — equivalently,
malformed lines interleaved with the valid records never alter or abort
the parse. -/
theorem c9_skip_and_continue :
    (∀ (rd : Option String) (lines : List RLine),
        parse_ralph_log rd lines
          = parse_ralph_log rd (lines.filter (fun l => ! l.isMalformed)))
    ∧ (∀ (sid : String) (lines : List SLine),
        process_session_lines sid lines
          = process_session_lines sid (lines.filter (fun l => ! l.isMalformed)))
    ∧ (∀ (aid : String) (lines : List ALine),
        parse_agent_file aid lines
          = parse_agent_file aid (lines.filter (fun l => ! l.isMalformed))) := by
  refine ⟨?_, ?_, ?_⟩
  · intro rd lines
    unfold parse_ralph_log
    rw [foldl_skips_fixed step_ralph_line RLine.isMalformed]
    intro st a ha
    cases a
    case malformed => rfl
    all_goals simp [RLine.isMalformed] at ha
  · intro sid lines
    unfold process_session_lines
    rw [foldl_skips_fixed step_session_line SLine.isMalformed]
    intro st a ha
    cases a
    case malformed => rfl
    all_goals simp [SLine.isMalformed] at ha
  · intro aid lines
    unfold parse_agent_file
    rw [foldl_skips_fixed step_agent_line ALine.isMalformed]
    intro st a ha
    cases a
    case malformed => rfl
    all_goals simp [ALine.isMalformed] at ha

/-- If no line can cache an execution-directory key, `runtime_dir` stays
unset through the whole Tier-1 scan. -/
theorem runtime_dir_stays_none :
    ∀ (lines : List RLine) (st : RState), st.runtime_dir = none →
      (∀ l ∈ lines, has_nonempty_cwd_init l = false) →
      (lines.foldl step_ralph_line st).runtime_dir = none := by
  intro lines
  induction lines with
  | nil => intro st h _; exact h
  | cons l rest ih =>
    intro st h hall
    have hl := hall l (by simp)
    have hrest : ∀ l' ∈ rest, has_nonempty_cwd_init l' = false :=
      fun l' hm => hall l' (by simp [hm])
    refine ih _ ?_ hrest
    cases l with
    | initRec s c =>
        simp only [has_nonempty_cwd_init, ne_eq, decide_not,
          Bool.not_eq_false', decide_eq_true_eq] at hl
        simp [step_ralph_line, h, hl]
    | iterHeader n t ts => simpa [step_ralph_line] using h
    | resultText r => simpa [step_ralph_line] using h
    | resultRec e r =>
        cases e <;> simpa [step_ralph_line] using h
    | otherJson => simpa [step_ralph_line] using h
    | malformed => simpa [step_ralph_line] using h

/-- C10. When the orchestrator log contains no system-initialization
record with a non-empty working directory, no execution-directory key is
cached, and Tier-2 parsing then returns the empty session for every
session id — even on a filesystem where the transcript exists at the
conventional path. -/
theorem c10_no_runtime_dir_empty_session :
    ∀ (lines : List RLine) (fs : FileSystem) (sid : String),
      (∀ l ∈ lines, has_nonempty_cwd_init l = false) →
      (parse_ralph_log none lines).2 = none ∧
      parse_session fs (parse_ralph_log none lines).2 sid
        = { session_id := sid, tool_calls := [], total_input_tokens := 0,
            total_output_tokens := 0, agents := [] } := by
  intro lines fs sid h
  have hrd : (parse_ralph_log none lines).2 = none := by
    unfold parse_ralph_log
    exact runtime_dir_stays_none lines _ rfl h
  exact ⟨hrd, by rw [hrd]; rfl⟩

/-- Witness for C10 at the concrete log `ralph_demo_lines` and the
filesystem `fs_demo`, which does hold a transcript for session `s`. -/
theorem c10_no_runtime_dir_empty_session_witness :
    (∀ l ∈ ralph_demo_lines, has_nonempty_cwd_init l = false) ∧
    parse_session fs_demo (parse_ralph_log none ralph_demo_lines).2 "s"
      = { session_id := "s", tool_calls := [], total_input_tokens := 0,
          total_output_tokens := 0, agents := [] } :=
  ⟨by decide,
   (c10_no_runtime_dir_empty_session ralph_demo_lines fs_demo "s" (by decide)).2⟩

/-- C8. A missing Tier-2 transcript file yields the empty session for
that session id: no tool calls, zero token totals, no agent
sub-sessions — and no error. -/
theorem c8_missing_file_empty_session :
    ∀ (fs : FileSystem) (rd sid : String), rd ≠ "" →
      fs.session_file (session_path rd sid) = none →
      parse_session fs (some rd) sid
        = { session_id := sid, tool_calls := [], total_input_tokens := 0,
            total_output_tokens := 0, agents := [] } := by
  intro fs rd sid hrd hfile
  simp [parse_session, hrd, hfile]

/-- Witness for C8 on a filesystem with no transcripts. -/
theorem c8_missing_file_empty_session_witness :
    fs_missing.session_file (session_path "d" "s") = none ∧
    parse_session fs_missing (some "d") "s"
      = { session_id := "s", tool_calls := [], total_input_tokens := 0,
          total_output_tokens := 0, agents := [] } :=
  ⟨rfl, c8_missing_file_empty_session fs_missing "d" "s" (by decide) rfl⟩

/-- The content loop in closed form: it advances the invocation counter
by the number of `tool_use` items and, when the record has no delegating
parent, appends exactly this record's invocations. -/
theorem content_fold_eq (parent : Option String) (ot : Nat) :
    ∀ (content : List ContentItem) (i : Nat) (s : Session),
      content.foldl (step_session_content parent ot) (i, s)
        = (i + count_uses content,
           { s with tool_calls := s.tool_calls ++
               (if parent = none then content_invocations ot i content
                else []) }) := by
  cases parent with
  | none =>
    intro content
    induction content with
    | nil => intro i s; cases s; simp [count_uses, content_invocations]
    | cons item rest ih =>
      intro i s
      cases s
      cases item with
      | toolUse n inp =>
        simp only [List.foldl_cons, step_session_content, reduceIte, ih,
          count_uses, List.countP_cons, content_invocations,
          Prod.mk.injEq, Session.mk.injEq]
        simp [List.append_assoc]
        omega
      | other =>
        simp only [List.foldl_cons, step_session_content, ih, count_uses,
          List.countP_cons, content_invocations]
        simp
  | some pid =>
    intro content
    induction content with
    | nil => intro i s; cases s; simp [count_uses, content_invocations]
    | cons item rest ih =>
      intro i s
      cases s
      cases item with
      | toolUse n inp =>
        simp only [List.foldl_cons, step_session_content, reduceIte, ih,
          count_uses, List.countP_cons, content_invocations,
          Prod.mk.injEq, Session.mk.injEq]
        simp
        omega
      | other =>
        simp only [List.foldl_cons, step_session_content, ih, count_uses,
          List.countP_cons, content_invocations]
        simp

/-- Filtering one record's invocations by "no delegating parent" keeps
all of them when the record has none and drops all of them otherwise. -/
theorem visible_of_pairs (parent : Option String) (ot i : Nat)
    (c : List ContentItem) :
    (((content_invocations ot i c).map (fun tc => (parent, tc))).filter
        (fun pc => pc.1.isNone)).map Prod.snd
      = if parent = none then content_invocations ot i c else [] := by
  cases parent <;> simp [List.filter_map, Function.comp, List.map_map]

/-- The `parse_session` per-line loop in closed form: the invocation
counter advances by the number of invocations, the token totals advance
by the per-record sums, and the visible tool calls are exactly the
invocations whose record has no delegating parent. -/
theorem session_fold_eq :
    ∀ (lines : List SLine) (i : Nat) (s : Session),
      lines.foldl step_session_line (i, s)
        = (i + total_uses lines,
           { s with
             tool_calls := s.tool_calls
               ++ ((session_invocations lines i).filter
                     (fun pc => pc.1.isNone)).map Prod.snd,
             total_input_tokens := s.total_input_tokens + tier2_input_sum lines,
             total_output_tokens :=
               s.total_output_tokens + tier2_output_sum lines }) := by
  intro lines
  induction lines with
  | nil =>
    intro i s
    cases s
    simp [total_uses, tier2_input_sum, tier2_output_sum, session_invocations]
  | cons l rest ih =>
    intro i s
    cases l with
    | assistantRec parent usage content =>
      simp only [List.foldl_cons, step_session_line]
      rw [content_fold_eq, ih]
      cases s
      simp only [session_invocations, total_uses, tier2_input_sum,
        tier2_output_sum, List.map_cons, List.sum_cons, List.filter_append,
        List.map_append, visible_of_pairs, Prod.mk.injEq, Session.mk.injEq,
        List.append_assoc]
      exact ⟨by omega, trivial, trivial, by omega, by omega, trivial⟩
    | otherJson =>
      simp only [List.foldl_cons, step_session_line]
      rw [ih]
      cases s
      simp [session_invocations, total_uses, tier2_input_sum, tier2_output_sum]
    | malformed =>
      simp only [List.foldl_cons, step_session_line]
      rw [ih]
      cases s
      simp [session_invocations, total_uses, tier2_input_sum, tier2_output_sum]

/-- One record's invocations carry the consecutive indices
`i, i+1, …`. -/
theorem content_invocations_indices (ot : Nat) :
    ∀ (c : List ContentItem) (i : Nat),
      (content_invocations ot i c).map (fun tc => tc.index)
        = List.range' i (count_uses c) := by
  intro c
  induction c with
  | nil => intro i; simp [content_invocations, count_uses]
  | cons item rest ih =>
    intro i
    cases item with
    | toolUse n inp =>
      simp [content_invocations, count_uses, List.countP_cons, ih,
        List.range'_succ]
    | other =>
      simp [content_invocations, count_uses, List.countP_cons, ih]

/-- A transcript's invocations carry the consecutive indices
`i, i+1, …` in file order. -/
theorem session_invocations_indices :
    ∀ (lines : List SLine) (i : Nat),
      (session_invocations lines i).map (fun pc => pc.2.index)
        = List.range' i (total_uses lines) := by
  intro lines
  induction lines with
  | nil => intro i; simp [session_invocations, total_uses]
  | cons l rest ih =>
    intro i
    cases l with
    | assistantRec p u c =>
      simp only [session_invocations, total_uses, List.map_append,
        List.map_map, List.map_cons, List.sum_cons]
      rw [show ((fun pc : Option String × ToolCall => pc.2.index) ∘
            fun tc => (p, tc)) = fun tc => tc.index from rfl,
          content_invocations_indices]
      rw [show (session_invocations rest (i + count_uses c)).map
            (fun pc => pc.2.index) = List.range' (i + count_uses c)
              (total_uses rest) from ih (i + count_uses c)]
      rw [List.range'_append_1, Nat.add_comm (total_uses rest)]
      rfl
    | otherJson => simp [session_invocations, total_uses, ih]
    | malformed => simp [session_invocations, total_uses, ih]

/-- When the transcript exists, `parse_session` produces it by running
the per-line loop and attaching the agent sub-sessions. -/
theorem parse_session_found (fs : FileSystem) (rd sid : String)
    (lines : List SLine) (hrd : rd ≠ "")
    (hfile : fs.session_file (session_path rd sid) = some lines) :
    parse_session fs (some rd) sid
      = { process_session_lines sid lines with
          agents := (process_session_lines sid lines).agents
            ++ (fs.agent_files (agent_dir_path rd sid)).map
                 (fun p => parse_agent_file p.1 p.2) } := by
  simp [parse_session, hrd, hfile]

/-- C1. For every session parsed from a Tier-2 transcript, the session's
`total_input_tokens` is the sum over the transcript's assistant records
of `input_tokens + cache_creation_input_tokens + cache_read_input_tokens`
and its `total_output_tokens` is the sum of `output_tokens` over the same
records. -/
theorem c1_token_accounting :
    ∀ (fs : FileSystem) (rd sid : String) (lines : List SLine), rd ≠ "" →
      fs.session_file (session_path rd sid) = some lines →
      (parse_session fs (some rd) sid).total_input_tokens
          = tier2_input_sum lines ∧
      (parse_session fs (some rd) sid).total_output_tokens
          = tier2_output_sum lines := by
  intro fs rd sid lines hrd hfile
  rw [parse_session_found fs rd sid lines hrd hfile]
  unfold process_session_lines
  rw [session_fold_eq]
  simp

/-- Witness for C1 on the concrete transcript `demo_lines`. -/
theorem c1_token_accounting_witness :
    fs_demo.session_file (session_path "d" "s") = some demo_lines ∧
    (parse_session fs_demo (some "d") "s").total_input_tokens = 66 ∧
    (parse_session fs_demo (some "d") "s").total_output_tokens = 9 := by
  have h := c1_token_accounting fs_demo "d" "s" demo_lines (by decide) rfl
  exact ⟨rfl, by rw [h.1]; decide, by rw [h.2]; decide⟩

/-- C2. For every session parsed from a Tier-2 transcript: the index
values assigned to its tool invocations — every invocation in file
order, nested ones included — are strictly increasing, and an invocation
is appended to the session's visible `tool_calls` exactly when its
enclosing record carries no delegating-parent identifier. -/
theorem c2_invocation_indexing :
    ∀ (fs : FileSystem) (rd sid : String) (lines : List SLine), rd ≠ "" →
      fs.session_file (session_path rd sid) = some lines →
      (parse_session fs (some rd) sid).tool_calls
          = ((session_invocations lines 0).filter
               (fun pc => pc.1.isNone)).map Prod.snd ∧
      List.Chain' (· < ·)
        ((session_invocations lines 0).map (fun pc => pc.2.index)) := by
  intro fs rd sid lines hrd hfile
  constructor
  · rw [parse_session_found fs rd sid lines hrd hfile]
    unfold process_session_lines
    rw [session_fold_eq]
    simp
  · rw [session_invocations_indices]
    exact (List.pairwise_lt_range' 0 (total_uses lines)).chain'

/-- Witness for C2 on the concrete transcript `demo_lines`, whose second
assistant record is nested under a delegating parent. -/
theorem c2_invocation_indexing_witness :
    fs_demo.session_file (session_path "d" "s") = some demo_lines ∧
    (parse_session fs_demo (some "d") "s").tool_calls
      = [{ name := "Read", input := { file_path := "R" },
           output_tokens := 5, index := 0 },
         { name := "Bash", input := { command := "ls" },
           output_tokens := 5, index := 1 }] ∧
    List.Chain' (· < ·)
      ((session_invocations demo_lines 0).map (fun pc => pc.2.index)) := by
  have h := c2_invocation_indexing fs_demo "d" "s" demo_lines (by decide) rfl
  exact ⟨rfl, by rw [h.1]; decide, h.2⟩

/-- The `find_late_test_runs` scan in closed form: it returns the number
of edit/write calls before the first test call (or in the whole list when
none exists) together with that call's position offset by the start
index. -/
theorem scan_late_tests_eq :
    ∀ (calls : List ToolCall) (i ec : Nat),
      scan_late_tests calls i ec
        = match first_test_idx calls with
          | some j => (ec + count_edit_calls (calls.take j), some (i + j))
          | none => (ec + count_edit_calls calls, none) := by
  intro calls
  induction calls with
  | nil => intro i ec; simp [scan_late_tests, first_test_idx, count_edit_calls]
  | cons tc rest ih =>
    intro i ec
    by_cases hedit : tc.name = "Edit" ∨ tc.name = "Write"
    · have hnb : is_test_call tc = false := by
        rcases hedit with h | h <;> simp [is_test_call, h]
      have hp : (tc.name == "Edit" || tc.name == "Write") = true := by
        rcases hedit with h | h <;> simp [h]
      rw [show scan_late_tests (tc :: rest) i ec
            = scan_late_tests rest (i + 1) (ec + 1) from by
          simp [scan_late_tests, hedit]]
      rw [ih]
      simp only [first_test_idx, hnb, Bool.false_eq_true, if_false]
      cases hf : first_test_idx rest with
      | none =>
        simp only [Option.map_none', count_edit_calls, List.countP_cons, hp,
          if_true]
        exact congrArg₂ Prod.mk (by omega) rfl
      | some j =>
        simp only [Option.map_some', List.take_succ_cons, count_edit_calls,
          List.countP_cons, hp, if_true]
        exact congrArg₂ Prod.mk (by omega) (by simp [Nat.add_assoc, Nat.add_comm 1 j])
    · by_cases htest : tc.name = "Bash" ∧ is_test_cmd tc.input.command
      · have hb : is_test_call tc = true := by
          simp [is_test_call, htest.1, htest.2]
        rw [show scan_late_tests (tc :: rest) i ec = (ec, some i) from by
          simp [scan_late_tests, hedit, htest]]
        simp [first_test_idx, hb, count_edit_calls]
      · have hnb : is_test_call tc = false := by
          by_cases hbash : tc.name = "Bash"
          · have : ¬ (is_test_cmd tc.input.command = true) := fun hc =>
              htest ⟨hbash, hc⟩
            simp [is_test_call, this]
          · simp [is_test_call, hbash]
        have hp : (tc.name == "Edit" || tc.name == "Write") = false := by
          push_neg at hedit
          simp [hedit.1, hedit.2]
        rw [show scan_late_tests (tc :: rest) i ec
              = scan_late_tests rest (i + 1) ec from by
            simp [scan_late_tests, hedit, htest]]
        rw [ih]
        simp only [first_test_idx, hnb, Bool.false_eq_true, if_false]
        cases hf : first_test_idx rest with
        | none =>
          simp only [Option.map_none', count_edit_calls, List.countP_cons, hp]
          simp
        | some j =>
          simp only [Option.map_some', List.take_succ_cons, count_edit_calls,
            List.countP_cons, hp]
          exact congrArg₂ Prod.mk (by simp)
            (by simp [Nat.add_assoc, Nat.add_comm 1 j])

/-- C5. Late-test detection behaves as specified: with a first test call
at position `i`, exactly one finding is produced when at least 5
edit/write calls precede it, and none otherwise; with no test call,
exactly one finding with sentinel index −1 is produced when at least one
edit/write call occurred, and none otherwise. In particular, 6 edits
then a `go test` shell call yield one finding with
`edits_before_test = 6`; 6 edits with no test call yield one finding
with `first_test_index = -1`; 2 edits then a test call yield none. -/
theorem c5_late_test_detection :
    (∀ s : Session, find_late_test_runs s = late_test_spec s)
    ∧ find_late_test_runs sess_six_edits_test
        = [{ edits_before_test := 6, first_test_index := 6,
             total_tool_calls := 7 }]
    ∧ find_late_test_runs sess_six_edits_no_test
        = [{ edits_before_test := 6, first_test_index := -1,
             total_tool_calls := 6 }]
    ∧ find_late_test_runs sess_two_edits_test = [] := by
  refine ⟨?_, by decide, by decide, by decide⟩
  intro s
  unfold find_late_test_runs late_test_spec
  rw [scan_late_tests_eq]
  cases h : first_test_idx s.tool_calls <;> simp [h]

/-- C6. Low-value-delegation detection flags an agent sub-session
exactly when it has fewer than 3 tool calls; in particular the example
agent with exactly 2 calls is flagged and the one with exactly 3 is
not. -/
theorem c6_low_value_delegation :
    (∀ (s : Session) (a : AgentSession), a ∈ s.agents →
        a.tool_calls.length < 3 →
        ({ agent_id := a.agent_id, agent_type := a.agent_type,
           tool_call_count := a.tool_calls.length } : AgentOverhead)
          ∈ find_agent_overhead s)
    ∧ (∀ (s : Session) (o : AgentOverhead), o ∈ find_agent_overhead s →
        o.tool_call_count < 3 ∧ ∃ a ∈ s.agents, a.tool_calls.length < 3 ∧
          o = { agent_id := a.agent_id, agent_type := a.agent_type,
                tool_call_count := a.tool_calls.length })
    ∧ find_agent_overhead sess_agents
        = [{ agent_id := "a2", agent_type := "Explore/Haiku",
             tool_call_count := 2 }] := by
  refine ⟨?_, ?_, by decide⟩
  · intro s a ha hlt
    unfold find_agent_overhead
    rw [List.mem_filterMap]
    exact ⟨a, ha, by simp [hlt]⟩
  · intro s o ho
    unfold find_agent_overhead at ho
    rw [List.mem_filterMap] at ho
    obtain ⟨a, ha, hfa⟩ := ho
    by_cases h : a.tool_calls.length < 3
    · rw [if_pos h] at hfa
      cases hfa
      exact ⟨h, a, ha, h, rfl⟩
    · rw [if_neg h] at hfa
      cases hfa

/-- Witness for C6: the agent with exactly 2 tool calls is flagged in
the example session. -/
theorem c6_low_value_delegation_witness :
    agent_two_calls ∈ sess_agents.agents ∧
    agent_two_calls.tool_calls.length < 3 ∧
    ({ agent_id := agent_two_calls.agent_id,
       agent_type := agent_two_calls.agent_type,
       tool_call_count := agent_two_calls.tool_calls.length } : AgentOverhead)
      ∈ find_agent_overhead sess_agents :=
  ⟨by decide, by decide,
   c6_low_value_delegation.1 sess_agents agent_two_calls (by decide) (by decide)⟩

/-- A fold whose step preserves the estimated cost preserves it
overall. -/
theorem foldl_preserves_cost {α : Type} (f : CostBreakdown → α → CostBreakdown)
    (h : ∀ b x, (f b x).estimated_cost_usd = b.estimated_cost_usd) :
    ∀ (l : List α) (b : CostBreakdown),
      (l.foldl f b).estimated_cost_usd = b.estimated_cost_usd := by
  intro l
  induction l with
  | nil => intro b; rfl
  | cons x rest ih => intro b; rw [List.foldl_cons, ih, h]

/-- The agent pricing loop accumulates the sum of the per-agent costs. -/
theorem fold_agent_cost :
    ∀ (agents : List AgentSession) (c : ℚ) (b : CostBreakdown),
      (agents.foldl step_agent_cost (c, b)).1
        = c + (agents.map agent_cost).sum := by
  intro agents
  induction agents with
  | nil => intro c b; simp
  | cons a rest ih =>
    intro c b
    rw [List.foldl_cons]
    have hstep : step_agent_cost (c, b) a
        = (c + agent_cost a,
           { b with input_tokens := b.input_tokens + a.total_input_tokens,
                    output_tokens := b.output_tokens + a.total_output_tokens }) := by
      unfold step_agent_cost agent_cost
      by_cases h : (strContains a.agent_type "Haiku"
          || strContains a.agent_type "Explore") = true <;> simp [h]
    rw [hstep, ih]
    simp only [List.map_cons, List.sum_cons]
    ring

/-- The estimated cost of a session in closed form: top-tier pricing on
the session totals plus the per-agent costs. -/
theorem estimate_cost_usd_eq (s : Session) :
    (estimate_cost s).estimated_cost_usd
      = (s.total_input_tokens : ℚ) * OPUS_INPUT_PRICE
        + (s.total_output_tokens : ℚ) * OPUS_OUTPUT_PRICE
        + (s.agents.map agent_cost).sum := by
  simp only [estimate_cost]
  rw [foldl_preserves_cost
      (fun (b : CostBreakdown) (agent : AgentSession) => agent.tool_calls.foldl
        (fun b tc =>
          { b with by_tool := bumpCount b.by_tool ("Agent:" ++ tc.name) 1 }) b)
      (fun b agent =>
        foldl_preserves_cost
          (fun (b : CostBreakdown) (tc : ToolCall) =>
            { b with by_tool := bumpCount b.by_tool ("Agent:" ++ tc.name) 1 })
          (fun b tc => rfl) agent.tool_calls b)]
  rw [foldl_preserves_cost
      (fun (b : CostBreakdown) (tc : ToolCall) =>
        { b with by_tool := bumpCount b.by_tool tc.name 1 })
      (fun b tc => rfl)]
  exact fold_agent_cost s.agents _ _

/-- Doubling an agent's token counts doubles its cost contribution. -/
theorem agent_cost_double (a : AgentSession) :
    agent_cost (double_agent a) = 2 * agent_cost a := by
  unfold agent_cost double_agent
  by_cases h : (strContains a.agent_type "Haiku"
      || strContains a.agent_type "Explore") = true <;>
    simp only [h, Bool.not_eq_true, Bool.false_eq_true, if_true, if_false,
      Nat.cast_mul, Nat.cast_ofNat] <;> ring

/-- C7. Cost estimation is a pure function of the session value, and
doubling every token count of a session — top level and in every agent
sub-session — exactly doubles the estimated cost. -/
theorem c7_cost_estimation :
    ∀ s : Session, estimate_cost s = estimate_cost s ∧
      (estimate_cost (double_session s)).estimated_cost_usd
        = 2 * (estimate_cost s).estimated_cost_usd := by
  intro s
  refine ⟨rfl, ?_⟩
  rw [estimate_cost_usd_eq, estimate_cost_usd_eq]
  unfold double_session
  simp only [List.map_map, Function.comp_def, agent_cost_double]
  rw [List.sum_map_mul_left]
  push_cast
  ring

/-- Looking up after a `setdefault(...).append(...)`: the appended key's
list grows by the new index, every other key is untouched. -/
theorem lookupIdx_appendIdx :
    ∀ (m : List (String × List Nat)) (k : String) (v : Nat) (q : String),
      lookupIdx (appendIdx m k v) q
        = if q = k then lookupIdx m q ++ [v] else lookupIdx m q := by
  intro m
  induction m with
  | nil =>
    intro k v q
    by_cases h : q = k
    · subst h; simp [appendIdx, lookupIdx]
    · simp [appendIdx, lookupIdx, h, show ¬ k = q from fun hh => h hh.symm]
  | cons e rest ih =>
    intro k v q
    obtain ⟨k₀, vs₀⟩ := e
    by_cases h0 : k₀ = k
    · subst h0
      by_cases hq : q = k₀
      · subst hq; simp [appendIdx, lookupIdx]
      · simp [appendIdx, lookupIdx, hq,
          show ¬ k₀ = q from fun hh => hq hh.symm]
    · by_cases hq0 : k₀ = q
      · subst hq0
        simp [appendIdx, lookupIdx, h0]
      · simp [appendIdx, lookupIdx, h0, hq0, ih]

/-- The grouping loop in closed form: looking up a non-empty resource
name in the built maps appends exactly the read (resp. edit) indices of
that resource to whatever the accumulator already held. -/
theorem maps_lookup :
    ∀ (calls : List ToolCall)
      (acc : List (String × List Nat) × List (String × List Nat))
      (fp : String), fp ≠ "" →
      lookupIdx (calls.foldl step_read_edit acc).1 fp
          = lookupIdx acc.1 fp ++ read_indices calls fp
        ∧ lookupIdx (calls.foldl step_read_edit acc).2 fp
          = lookupIdx acc.2 fp ++ edit_indices calls fp := by
  intro calls
  induction calls with
  | nil => intro acc fp hfp; simp [read_indices, edit_indices]
  | cons tc rest ih =>
    intro acc fp hfp
    rw [List.foldl_cons]
    by_cases hr : tc.name = "Read"
    · by_cases hp : tc.input.file_path = ""
      · have hstep : step_read_edit acc tc = acc := by
          simp [step_read_edit, hr, hp]
        rw [hstep]
        obtain ⟨h1, h2⟩ := ih acc fp hfp
        refine ⟨h1.trans ?_, h2.trans ?_⟩
        · simp [read_indices, List.filterMap_cons, hp,
            show ¬ ("" : String) = fp from fun hh => hfp hh.symm]
        · simp [edit_indices, List.filterMap_cons, hr]
      · have hstep : step_read_edit acc tc
            = (appendIdx acc.1 tc.input.file_path tc.index, acc.2) := by
          simp [step_read_edit, hr, hp]
        rw [hstep]
        obtain ⟨h1, h2⟩ := ih (appendIdx acc.1 tc.input.file_path tc.index,
          acc.2) fp hfp
        refine ⟨h1.trans ?_, h2.trans ?_⟩
        · rw [lookupIdx_appendIdx]
          by_cases hq : fp = tc.input.file_path
          · simp [read_indices, List.filterMap_cons, hr, hq,
              List.append_assoc]
          · simp [read_indices, List.filterMap_cons, hq,
              show ¬ tc.input.file_path = fp from fun hh => hq hh.symm]
        · simp [edit_indices, List.filterMap_cons, hr]
    · by_cases he : tc.name = "Edit" ∨ tc.name = "Write"
      · by_cases hp : tc.input.file_path = ""
        · have hstep : step_read_edit acc tc = acc := by
            simp [step_read_edit, hr, he, hp]
          rw [hstep]
          obtain ⟨h1, h2⟩ := ih acc fp hfp
          refine ⟨h1.trans ?_, h2.trans ?_⟩
          · simp [read_indices, List.filterMap_cons, hr]
          · simp [edit_indices, List.filterMap_cons, hp,
              show ¬ ("" : String) = fp from fun hh => hfp hh.symm]
        · have hstep : step_read_edit acc tc
              = (acc.1, appendIdx acc.2 tc.input.file_path tc.index) := by
            simp [step_read_edit, hr, he, hp]
          rw [hstep]
          obtain ⟨h1, h2⟩ := ih (acc.1,
            appendIdx acc.2 tc.input.file_path tc.index) fp hfp
          refine ⟨h1.trans ?_, h2.trans ?_⟩
          · simp [read_indices, List.filterMap_cons, hr]
          · rw [lookupIdx_appendIdx]
            by_cases hq : fp = tc.input.file_path
            · simp [edit_indices, List.filterMap_cons, he, hq,
                List.append_assoc]
            · simp [edit_indices, List.filterMap_cons, hq,
                show ¬ tc.input.file_path = fp from fun hh => hq hh.symm]
      · have hstep : step_read_edit acc tc = acc := by
          simp [step_read_edit, hr, he]
        rw [hstep]
        obtain ⟨h1, h2⟩ := ih acc fp hfp
        refine ⟨h1.trans ?_, h2.trans ?_⟩
        · simp [read_indices, List.filterMap_cons, hr]
        · simp [edit_indices, List.filterMap_cons, he]

/-- `appendIdx` adds at most the inserted key to the key set. -/
theorem mem_keys_appendIdx :
    ∀ (m : List (String × List Nat)) (k : String) (v : Nat) (q : String),
      q ∈ (appendIdx m k v).map Prod.fst ↔ q ∈ m.map Prod.fst ∨ q = k := by
  intro m
  induction m with
  | nil => intro k v q; simp [appendIdx]
  | cons e rest ih =>
    intro k v q
    obtain ⟨k₀, vs₀⟩ := e
    by_cases h0 : k₀ = k
    · subst h0
      simp [appendIdx]
      tauto
    · simp [appendIdx, h0, ih]
      tauto

/-- `appendIdx` keeps the key list duplicate-free. -/
theorem nodup_keys_appendIdx :
    ∀ (m : List (String × List Nat)) (k : String) (v : Nat),
      (m.map Prod.fst).Nodup → ((appendIdx m k v).map Prod.fst).Nodup := by
  intro m
  induction m with
  | nil => intro k v _; simp [appendIdx]
  | cons e rest ih =>
    intro k v hnd
    obtain ⟨k₀, vs₀⟩ := e
    simp only [List.map_cons, List.nodup_cons] at hnd
    by_cases h0 : k₀ = k
    · subst h0
      simpa [appendIdx] using hnd
    · simp only [appendIdx, if_neg h0, List.map_cons, List.nodup_cons]
      refine ⟨?_, ih k v hnd.2⟩
      rw [mem_keys_appendIdx]
      rintro (h | h)
      · exact hnd.1 h
      · exact h0 h

/-- In a map with duplicate-free keys, each entry's value is what lookup
returns for its key. -/
theorem entry_eq_lookupIdx :
    ∀ (m : List (String × List Nat)) (fp : String) (vs : List Nat),
      (m.map Prod.fst).Nodup → (fp, vs) ∈ m → vs = lookupIdx m fp := by
  intro m
  induction m with
  | nil => intro fp vs _ h; simp at h
  | cons e rest ih =>
    intro fp vs hnd hmem
    obtain ⟨k₀, vs₀⟩ := e
    simp only [List.map_cons, List.nodup_cons] at hnd
    rcases List.mem_cons.mp hmem with h | h
    · obtain ⟨h1, h2⟩ := Prod.mk.injEq .. ▸ h
      subst h1; subst h2
      simp [lookupIdx]
    · have hne : ¬ k₀ = fp := by
        intro hh
        subst hh
        exact hnd.1 (List.mem_map.mpr ⟨(k₀, vs), h, rfl⟩)
      simp only [lookupIdx, if_neg hne]
      exact ih fp vs hnd.2 h

/-- Only non-empty resource names enter the `reads` map, whose key set
stays duplicate-free; a name is a key exactly when the resource has at
least one read. -/
theorem reads_map_keys :
    ∀ (calls : List ToolCall)
      (acc : List (String × List Nat) × List (String × List Nat)),
      (acc.1.map Prod.fst).Nodup →
      (∀ k ∈ acc.1.map Prod.fst, k ≠ "") →
      ((calls.foldl step_read_edit acc).1.map Prod.fst).Nodup ∧
      (∀ k ∈ (calls.foldl step_read_edit acc).1.map Prod.fst, k ≠ "") ∧
      (∀ fp : String, fp ≠ "" →
        (fp ∈ (calls.foldl step_read_edit acc).1.map Prod.fst ↔
          fp ∈ acc.1.map Prod.fst ∨ read_indices calls fp ≠ [])) := by
  intro calls
  induction calls with
  | nil =>
    intro acc hnd hne
    refine ⟨hnd, hne, ?_⟩
    intro fp hfp
    simp [read_indices]
  | cons tc rest ih =>
    intro acc hnd hne
    rw [List.foldl_cons]
    by_cases hr : tc.name = "Read"
    · by_cases hp : tc.input.file_path = ""
      · have hstep : step_read_edit acc tc = acc := by
          simp [step_read_edit, hr, hp]
        rw [hstep]
        obtain ⟨g1, g2, g3⟩ := ih acc hnd hne
        refine ⟨g1, g2, ?_⟩
        intro fp hfp
        rw [g3 fp hfp]
        simp [read_indices, List.filterMap_cons, hp,
          show ¬ ("" : String) = fp from fun hh => hfp hh.symm]
      · have hstep : step_read_edit acc tc
            = (appendIdx acc.1 tc.input.file_path tc.index, acc.2) := by
          simp [step_read_edit, hr, hp]
        rw [hstep]
        obtain ⟨g1, g2, g3⟩ := ih (appendIdx acc.1 tc.input.file_path
            tc.index, acc.2)
          (nodup_keys_appendIdx acc.1 tc.input.file_path tc.index hnd)
          (by
            intro k hk
            rcases (mem_keys_appendIdx acc.1 tc.input.file_path
              tc.index k).mp hk with h | h
            · exact hne k h
            · subst h; exact hp)
        refine ⟨g1, g2, ?_⟩
        intro fp hfp
        rw [g3 fp hfp]
        rw [show ((appendIdx acc.1 tc.input.file_path tc.index, acc.2) :
            List (String × List Nat) × List (String × List Nat)).1
          = appendIdx acc.1 tc.input.file_path tc.index from rfl]
        rw [mem_keys_appendIdx]
        by_cases hq : fp = tc.input.file_path
        · simp [read_indices, List.filterMap_cons, hr, hq]
        · simp [read_indices, List.filterMap_cons, hq,
            show ¬ tc.input.file_path = fp from fun hh => hq hh.symm]
    · have hstep : (step_read_edit acc tc).1 = acc.1 ∧
          ∀ fp, read_indices (tc :: rest) fp = read_indices rest fp := by
        constructor
        · by_cases he : tc.name = "Edit" ∨ tc.name = "Write"
          · by_cases hp : tc.input.file_path = "" <;>
              simp [step_read_edit, hr, he, hp]
          · simp [step_read_edit, hr, he]
        · intro fp
          simp [read_indices, List.filterMap_cons, hr]
      have hkeep : step_read_edit acc tc
          = ((step_read_edit acc tc).1, (step_read_edit acc tc).2) := rfl
      obtain ⟨g1, g2, g3⟩ := ih ((step_read_edit acc tc).1,
        (step_read_edit acc tc).2) (by rw [hstep.1]; exact hnd)
        (by rw [hstep.1]; exact hne)
      rw [hkeep]
      refine ⟨g1, g2, ?_⟩
      intro fp hfp
      rw [g3 fp hfp, hstep.1, hstep.2 fp]

/-- Insertion into a descending run preserves the set of elements. -/
theorem mem_insertDescBy {α : Type} (key : α → Nat) (b : α) :
    ∀ (l : List α) (a : α), a ∈ insertDescBy key b l ↔ a = b ∨ a ∈ l := by
  intro l
  induction l with
  | nil => intro a; simp [insertDescBy]
  | cons c rest ih =>
    intro a
    by_cases h : key c ≤ key b
    · simp [insertDescBy, h]
    · simp [insertDescBy, h, ih]
      tauto

/-- The stable descending sort preserves the set of elements. -/
theorem mem_sortDescBy {α : Type} (key : α → Nat) :
    ∀ (l : List α) (a : α), a ∈ sortDescBy key l ↔ a ∈ l := by
  intro l
  induction l with
  | nil => intro a; simp [sortDescBy]
  | cons c rest ih => intro a; simp [sortDescBy, mem_insertDescBy, ih]

/-- Every entry of the built `reads` map is a non-empty resource name
together with exactly its read indices. -/
theorem build_maps_entries (calls : List ToolCall) :
    ∀ entry ∈ (build_read_edit_maps calls).1,
      entry.1 ≠ "" ∧ entry.2 = read_indices calls entry.1 := by
  intro entry hmem
  have base := reads_map_keys calls ([], []) (by simp) (by simp)
  have hkey : entry.1 ∈ ((build_read_edit_maps calls).1.map Prod.fst) :=
    List.mem_map.mpr ⟨entry, hmem, rfl⟩
  have hne := base.2.1 entry.1 hkey
  refine ⟨hne, ?_⟩
  have hm : (entry.1, entry.2) ∈ (build_read_edit_maps calls).1 := by
    simpa using hmem
  have h := entry_eq_lookupIdx _ entry.1 entry.2 base.1 hm
  rw [h]
  have hl := (maps_lookup calls ([], []) entry.1 hne).1
  simpa [build_read_edit_maps, lookupIdx] using hl

/-- Looking up a non-empty resource in the built `edit_indices` map
gives exactly its edit indices. -/
theorem build_maps_edit_lookup (calls : List ToolCall) (fp : String)
    (h : fp ≠ "") :
    lookupIdx (build_read_edit_maps calls).2 fp = edit_indices calls fp := by
  have hl := (maps_lookup calls ([], []) fp h).2
  simpa [build_read_edit_maps, lookupIdx] using hl

/-- A non-empty resource name is a key of the built `reads` map exactly
when the resource was read at least once. -/
theorem build_maps_key_iff (calls : List ToolCall) (fp : String)
    (h : fp ≠ "") :
    fp ∈ ((build_read_edit_maps calls).1.map Prod.fst) ↔
      read_indices calls fp ≠ [] := by
  have base := reads_map_keys calls ([], []) (by simp) (by simp)
  rw [show build_read_edit_maps calls = calls.foldl step_read_edit ([], [])
    from rfl]
  rw [base.2.2 fp h]
  simp

/-- Every reported redundant-read finding names a resource read more
than once, counts its reads, and charges 500 tokens per consecutive
read pair without an intervening edit of the same resource. -/
theorem mem_find_redundant_reads_props :
    ∀ (s : Session) (r : RedundantRead), r ∈ find_redundant_reads s →
      r.file_path ≠ "" ∧
      1 < (read_indices s.tool_calls r.file_path).length ∧
      r.read_count = (read_indices s.tool_calls r.file_path).length ∧
      0 < countWasted (read_indices s.tool_calls r.file_path)
            (edit_indices s.tool_calls r.file_path) ∧
      r.total_wasted_tokens
        = countWasted (read_indices s.tool_calls r.file_path)
            (edit_indices s.tool_calls r.file_path) * 500 := by
  intro s r hr
  unfold find_redundant_reads at hr
  rw [mem_sortDescBy, List.mem_filterMap] at hr
  obtain ⟨entry, hmem, hf⟩ := hr
  obtain ⟨hne, hvs⟩ := build_maps_entries s.tool_calls entry hmem
  rw [build_maps_edit_lookup s.tool_calls entry.1 hne] at hf
  by_cases hlen : entry.2.length ≤ 1
  · rw [if_pos hlen] at hf; cases hf
  · rw [if_neg hlen] at hf
    by_cases hw : countWasted entry.2 (edit_indices s.tool_calls entry.1) > 0
    · rw [if_pos hw] at hf
      cases hf
      dsimp only
      rw [hvs] at hlen hw ⊢
      exact ⟨hne, by omega, rfl, hw, rfl⟩
    · rw [if_neg hw] at hf; cases hf

/-- C3. Redundant-read detection: a finding is reported for exactly the
resources read more than once for which some consecutive read-index pair
has no `Edit`/`Write` of the same resource strictly between the two
indices, and each such pair is charged 500 estimated wasted tokens. In
particular, reading `R` at indices 2, 5, 9 with no edit yields one
finding worth 2 × 500 tokens, and an edit of `R` at index 7 reduces it
to 1 × 500. -/
theorem c3_redundant_reads :
    (∀ (s : Session) (r : RedundantRead), r ∈ find_redundant_reads s →
        r.file_path ≠ "" ∧
        1 < (read_indices s.tool_calls r.file_path).length ∧
        r.read_count = (read_indices s.tool_calls r.file_path).length ∧
        0 < countWasted (read_indices s.tool_calls r.file_path)
              (edit_indices s.tool_calls r.file_path) ∧
        r.total_wasted_tokens
          = countWasted (read_indices s.tool_calls r.file_path)
              (edit_indices s.tool_calls r.file_path) * 500)
    ∧ (∀ (s : Session) (fp : String), fp ≠ "" →
        1 < (read_indices s.tool_calls fp).length →
        0 < countWasted (read_indices s.tool_calls fp)
              (edit_indices s.tool_calls fp) →
        ∃ r ∈ find_redundant_reads s, r.file_path = fp ∧
          r.read_count = (read_indices s.tool_calls fp).length ∧
          r.total_wasted_tokens
            = countWasted (read_indices s.tool_calls fp)
                (edit_indices s.tool_calls fp) * 500)
    ∧ find_redundant_reads sess_reads
        = [{ file_path := "R", read_count := 3, first_read_index := 2,
             total_wasted_tokens := 1000 }]
    ∧ find_redundant_reads sess_reads_edit
        = [{ file_path := "R", read_count := 3, first_read_index := 2,
             total_wasted_tokens := 500 }] := by
  refine ⟨mem_find_redundant_reads_props, ?_, by decide, by decide⟩
  · intro s fp hfp hlen hw
    have hkey : fp ∈ ((build_read_edit_maps s.tool_calls).1.map Prod.fst) := by
      rw [build_maps_key_iff s.tool_calls fp hfp]
      intro hnil
      rw [hnil] at hlen
      simp at hlen
    obtain ⟨entry, hmem, hfst⟩ := List.mem_map.mp hkey
    obtain ⟨hne, hvs⟩ := build_maps_entries s.tool_calls entry hmem
    rw [hfst] at hvs
    refine ⟨{ file_path := fp, read_count := entry.2.length,
              first_read_index := entry.2.headD 0,
              total_wasted_tokens := countWasted entry.2
                (edit_indices s.tool_calls fp) * 500 }, ?_, rfl, ?_, ?_⟩
    · unfold find_redundant_reads
      rw [mem_sortDescBy, List.mem_filterMap]
      refine ⟨entry, hmem, ?_⟩
      rw [hfst, build_maps_edit_lookup s.tool_calls fp hfp]
      rw [if_neg (by rw [hvs]; omega), if_pos (by rw [hvs]; exact hw)]
    · rw [hvs]
    · rw [hvs]

/-- Witness for C3 on the session reading `R` at indices 2, 5, 9. -/
theorem c3_redundant_reads_witness :
    ∃ r ∈ find_redundant_reads sess_reads, r.file_path = "R" ∧
      r.read_count = 3 ∧ r.total_wasted_tokens = 1000 := by
  obtain ⟨r, hr, h1, h2, h3⟩ := c3_redundant_reads.2.1 sess_reads "R"
    (by decide) (by decide) (by decide)
  refine ⟨r, hr, h1, ?_, ?_⟩
  · rw [h2]; decide
  · rw [h3]; decide

/-- At most one redundant pair per consecutive read pair: the wasted
count never exceeds the number of reads minus one. -/
theorem countWasted_le (l e : List Nat) : countWasted l e ≤ l.length - 1 := by
  unfold countWasted
  calc (l.zip l.tail).countP _ ≤ (l.zip l.tail).length :=
        List.countP_le_length _
    _ ≤ l.tail.length := by rw [List.length_zip]; omega
    _ = l.length - 1 := List.length_tail l

/-- Each reported finding counts at least two reads and wastes at most
500 tokens per read beyond the first. -/
theorem redundant_read_bounds :
    ∀ (s : Session) (r : RedundantRead), r ∈ find_redundant_reads s →
      2 ≤ r.read_count ∧
      r.total_wasted_tokens ≤ (r.read_count - 1) * 500 := by
  intro s r hr
  obtain ⟨_, hlen, hrc, _, htw⟩ := mem_find_redundant_reads_props s r hr
  constructor
  · omega
  · rw [htw, hrc]
    have := countWasted_le (read_indices s.tool_calls r.file_path)
      (edit_indices s.tool_calls r.file_path)
    exact Nat.mul_le_mul_right 500 this

/-- The per-finding loop of `detect_all_patterns` in closed form. -/
theorem inner_detect_fold :
    ∀ (rs : List RedundantRead) (a : DetectTotals),
      rs.foldl (fun (a : DetectTotals) r =>
        { a with
          total_redundant_reads := a.total_redundant_reads + (r.read_count - 1),
          total_redundant_tokens :=
            a.total_redundant_tokens + r.total_wasted_tokens,
          top_redundant_files :=
            bumpCount a.top_redundant_files r.file_path r.read_count }) a
        = { a with
            total_redundant_reads := a.total_redundant_reads
              + (rs.map (fun r => r.read_count - 1)).sum,
            total_redundant_tokens := a.total_redundant_tokens
              + (rs.map (fun r => r.total_wasted_tokens)).sum,
            top_redundant_files := rs.foldl
              (fun m r => bumpCount m r.file_path r.read_count)
              a.top_redundant_files } := by
  intro rs
  induction rs with
  | nil => intro a; cases a; simp
  | cons r rest ih =>
    intro a
    rw [List.foldl_cons, ih]
    cases a
    simp only [List.map_cons, List.sum_cons, List.foldl_cons,
      DetectTotals.mk.injEq]
    exact ⟨by omega, by omega, trivial, trivial, trivial⟩

/-- `step_detect` in closed form. -/
theorem step_detect_fields (acc : DetectTotals) (s : Session) :
    step_detect acc s
      = { total_redundant_reads := acc.total_redundant_reads
            + ((find_redundant_reads s).map (fun r => r.read_count - 1)).sum,
          total_redundant_tokens := acc.total_redundant_tokens
            + ((find_redundant_reads s).map
                (fun r => r.total_wasted_tokens)).sum,
          total_late_tests := acc.total_late_tests
            + (find_late_test_runs s).length,
          total_overhead_agents := acc.total_overhead_agents
            + (find_agent_overhead s).length,
          top_redundant_files := (find_redundant_reads s).foldl
            (fun m r => bumpCount m r.file_path r.read_count)
            acc.top_redundant_files } := by
  unfold step_detect
  rw [inner_detect_fold]


/-- The cross-session loop accumulates the per-session sums of
`read_count - 1` and of `total_wasted_tokens`. -/
theorem detect_fold_totals :
    ∀ (sessions : List Session) (acc : DetectTotals),
      (sessions.foldl step_detect acc).total_redundant_reads
          = acc.total_redundant_reads + total_redundant_reads_spec sessions
      ∧ (sessions.foldl step_detect acc).total_redundant_tokens
          = acc.total_redundant_tokens
            + total_redundant_tokens_spec sessions := by
  intro sessions
  induction sessions with
  | nil =>
    intro acc
    simp [total_redundant_reads_spec, total_redundant_tokens_spec]
  | cons s rest ih =>
    intro acc
    rw [List.foldl_cons, step_detect_fields]
    obtain ⟨h1, h2⟩ := ih _
    refine ⟨h1.trans ?_, h2.trans ?_⟩
    · simp only [total_redundant_reads_spec, List.map_cons, List.sum_cons]
      omega
    · simp only [total_redundant_tokens_spec, List.map_cons, List.sum_cons]
      omega

/-- The merged token waste is bounded by 500 per counted occurrence. -/
theorem tokens_le_reads (sessions : List Session) :
    total_redundant_tokens_spec sessions
      ≤ 500 * total_redundant_reads_spec sessions := by
  unfold total_redundant_tokens_spec total_redundant_reads_spec
  rw [← List.sum_map_mul_left]
  refine List.sum_le_sum ?_
  intro s _
  rw [← List.sum_map_mul_left]
  refine List.sum_le_sum ?_
  intro r hr
  have h := (redundant_read_bounds s r hr).2
  omega

/-- A batch with at least one redundant read has a positive merged
occurrence count. -/
theorem redundant_reads_spec_pos :
    ∀ (sessions : List Session),
      (∃ s ∈ sessions, find_redundant_reads s ≠ []) →
      0 < total_redundant_reads_spec sessions := by
  intro sessions hex
  obtain ⟨s, hs, hne⟩ := hex
  unfold total_redundant_reads_spec
  obtain ⟨r, hr⟩ := List.exists_mem_of_ne_nil _ hne
  have h2 : 2 ≤ r.read_count := (redundant_read_bounds s r hr).1
  have hinner : 1 ≤ ((find_redundant_reads s).map
      (fun r => r.read_count - 1)).sum := by
    have := List.single_le_sum (l := (find_redundant_reads s).map
        (fun r => r.read_count - 1)) (fun x _ => Nat.zero_le x)
      (r.read_count - 1) (List.mem_map.mpr ⟨r, hr, rfl⟩)
    omega
  have houter := List.single_le_sum (l := sessions.map (fun s =>
      ((find_redundant_reads s).map (fun r => r.read_count - 1)).sum))
    (fun x _ => Nat.zero_le x)
    (((find_redundant_reads s).map (fun r => r.read_count - 1)).sum)
    (List.mem_map.mpr ⟨s, hs, rfl⟩)
  omega

/-- C4 counterexample: on the one-session batch whose resource `R` is
read at indices 2, 5, 9 with an edit at 7, the "Redundant File Reads"
pattern has `occurrences = 2` (it counts `read_count - 1`) but
`estimatedWasteTokens = 500`, so `estimatedWasteTokens ≠
500 × occurrences`. -/
theorem c4_counterexample :
    ∃ p ∈ detect_all_patterns [sess_reads_edit],
      p.name = "Redundant File Reads" ∧
      p.occurrences = 2 ∧ p.estimated_waste_tokens = 500 ∧
      p.estimated_waste_tokens ≠ 500 * p.occurrences := by decide

/-- C4 (amended). For every batch with at least one redundant read, the
"Redundant File Reads" pattern exists and satisfies:
`occurrences` is the sum over sessions and flagged resources of
`read_count − 1`; `estimatedWasteTokens` is the merged sum of the
per-resource estimates (500 per consecutive read pair without an
intervening edit); hence `estimatedWasteTokens ≤ 500 × occurrences`,
with equality only when every flagged resource is wasteful at each of
its consecutive read pairs. -/
theorem c4_redundant_pattern_amended :
    ∀ sessions : List Session,
      (∃ s ∈ sessions, find_redundant_reads s ≠ []) →
      ∃ p ∈ detect_all_patterns sessions,
        p.name = "Redundant File Reads" ∧
        p.occurrences = total_redundant_reads_spec sessions ∧
        p.estimated_waste_tokens = total_redundant_tokens_spec sessions ∧
        p.estimated_waste_tokens ≤ 500 * p.occurrences := by
  intro sessions hex
  have hpos := redundant_reads_spec_pos sessions hex
  obtain ⟨h1, h2⟩ := detect_fold_totals sessions {}
  have h1' : (sessions.foldl step_detect {}).total_redundant_reads
      = total_redundant_reads_spec sessions := by
    rw [h1]; simp
  have h2' : (sessions.foldl step_detect {}).total_redundant_tokens
      = total_redundant_tokens_spec sessions := by
    rw [h2]; simp
  have hcond : (sessions.foldl step_detect {}).total_redundant_reads > 0 := by
    rw [h1']; exact hpos
  simp only [detect_all_patterns, mem_sortDescBy]
  refine ⟨_, List.mem_append_left _ (List.mem_append_left _
      (by rw [if_pos hcond]; exact List.mem_singleton_self _)),
    ?_, ?_, ?_, ?_⟩
  · rfl
  · exact h1'
  · exact h2'
  · rw [h1', h2']
    exact tokens_le_reads sessions

/-- Witness for the amended C4 on the one-session batch reading `R` at
indices 2, 5, 9 with no edit. -/
theorem c4_redundant_pattern_amended_witness :
    (∃ s ∈ [sess_reads], find_redundant_reads s ≠ []) ∧
    ∃ p ∈ detect_all_patterns [sess_reads],
      p.name = "Redundant File Reads" ∧
      p.occurrences = total_redundant_reads_spec [sess_reads] ∧
      p.estimated_waste_tokens = total_redundant_tokens_spec [sess_reads] ∧
      p.estimated_waste_tokens ≤ 500 * p.occurrences :=
  ⟨by decide, c4_redundant_pattern_amended [sess_reads] (by decide)⟩
